import Mathlib

/-!
# Verification of the task-store core (`src/contexts/TaskContext.tsx`)

A shallow embedding of the soft-delete-with-undo task/category state engine
of the repository's `TaskProvider`.  The store state consists of the
`categoryLists` array, the `deletedTasks` `Map` (modelled as an
insertion-ordered association list, as a JS `Map` is), the set of scheduled
and not-yet-cancelled expiry timers (`setTimeout` handles), and a counter
supplying fresh timer handles.  `setState(prev => ...)` updater calls are
modelled as immediate state transformations, matching the spec's reading of
the code ("removes the task from its category's active list immediately").

The `Promise` returned by `deleteTask` is modelled as a write-once cell
`Option Bool`: `resolveOnce` settles it on the first `resolve` call and
ignores every later one, exactly as a JS promise does.  `resolve(false)`
means the task was found and temporarily deleted (undo possible,
`TemporarilyDeleted`); `resolve(true)` means already gone / permanently
deleted (`AlreadyGone`).

JS `Date.prototype.toDateString()` renders only the calendar day (weekday,
month, day, year), so it is modelled as the projection of a date value onto
its (year, month, day) triple; two dates have equal `toDateString` results
exactly when those triples agree.
-/

namespace TaskStore

/-- Priority levels of a task: `'!!!' | '!!' | '!'` (src/unnamed/part_000). -/
inductive Priority where
  | bangBangBang
  | bangBang
  | bang
  deriving DecidableEq, Repr

/-- A checklist item nested under a task (src/unnamed/part_000, `Subtask`). -/
structure Subtask where
  id : String
  name : String
  completed : Bool
  deriving DecidableEq, Repr

/-- A JS `Date` value: calendar-day fields plus a time-of-day component.
`toDateString` depends only on the day fields. -/
structure DateValue where
  year : Int
  month : Nat
  day : Nat
  msOfDay : Nat
  deriving DecidableEq, Repr

/-- `Date.prototype.toDateString()`: the calendar-day projection.  The real
function renders a string such as "Wed Oct 11 2026", which is injective in
(year, month, day), so the triple is a faithful model of the string. -/
def DateValue.toDateString (d : DateValue) : Int × Nat × Nat :=
  (d.year, d.month, d.day)

/-- A task (src/unnamed/part_000, `Task`). -/
structure Task where
  id : String
  title : String
  description : Option String
  dueDate : DateValue
  completed : Bool
  category : String
  priority : Option Priority
  subtasks : Option (List Subtask)
  deriving DecidableEq, Repr

/-- A named category holding an ordered list of tasks
(src/unnamed/part_000, `CategoryList`). -/
structure CategoryList where
  category : String
  tasks : List Task
  color : String
  icon : String
  deriving DecidableEq, Repr

/-- A pending-deletion record stored in the `deletedTasks` map
(src/unnamed/part_000, `DeletedTask`): the removed task snapshot, the name
of the category it was removed from, and the `setTimeout` handle of its
5-second expiry timer. -/
structure DeletedTask where
  task : Task
  categoryName : String
  timeoutId : Nat
  deriving DecidableEq, Repr

/-- The full state of the `TaskProvider`:
* `categoryLists` — the `useState<CategoryList[]>` array;
* `deletedTasks` — the `useState<Map<string, DeletedTask>>` map, as an
  insertion-ordered association list;
* `activeTimers` — handles of `setTimeout` timers that are scheduled and
  have been neither cancelled by `clearTimeout` nor fired yet;
* `nextTimeout` — fresh-handle supply for `setTimeout`. -/
structure Store where
  categoryLists : List CategoryList
  deletedTasks : List (String × DeletedTask)
  activeTimers : List Nat
  nextTimeout : Nat
  deriving DecidableEq, Repr

/-- The initial provider state: `useState([])` and `useState(new Map())`. -/
def Store.init : Store :=
  { categoryLists := [], deletedTasks := [], activeTimers := [], nextTimeout := 0 }

/-! ## JS `Map` operations on the association-list model -/

/-- `Map.prototype.get`: first (and, with unique keys, only) entry. -/
def mapGet (m : List (String × DeletedTask)) (k : String) : Option DeletedTask :=
  (m.find? (fun p => p.1 == k)).map Prod.snd

/-- `Map.prototype.set`: overwrite in place when the key exists (a JS `Map`
keeps the original insertion position), append otherwise. -/
def mapSet (m : List (String × DeletedTask)) (k : String) (v : DeletedTask) :
    List (String × DeletedTask) :=
  if m.any (fun p => p.1 == k) then
    m.map (fun p => if p.1 == k then (k, v) else p)
  else
    m ++ [(k, v)]

/-- `Map.prototype.delete`: drop the entry with the given key. -/
def mapDelete (m : List (String × DeletedTask)) (k : String) :
    List (String × DeletedTask) :=
  m.filter (fun p => !(p.1 == k))

/-! ## The write-once promise cell -/

/-- A JS promise settles on the first `resolve` call; later calls are
ignored.  `none` is an unsettled promise, `some v` one settled with `v`. -/
def resolveOnce (p : Option Bool) (v : Bool) : Option Bool :=
  match p with
  | some w => some w
  | none => some v

/-! ## Store operations (TaskContext.tsx lines 66–248) -/

/-- `addCategoryList` (line 66): append the new category list. -/
def addCategoryList (s : Store) (cl : CategoryList) : Store :=
  { s with categoryLists := s.categoryLists ++ [cl] }

/-- `addTask` (line 84): append the task to every category list whose name
equals `task.category`; leave every other category list unchanged. -/
def addTask (s : Store) (task : Task) : Store :=
  { s with
    categoryLists :=
      s.categoryLists.map (fun categoryList =>
        if categoryList.category == task.category then
          { categoryList with tasks := categoryList.tasks ++ [task] }
        else
          categoryList) }

/-- `toggleTaskCompletion` (line 102): flip `completed` on every task whose
id matches, across all category lists. -/
def toggleTaskCompletion (s : Store) (taskId : String) : Store :=
  { s with
    categoryLists :=
      s.categoryLists.map (fun categoryList =>
        { categoryList with
          tasks := categoryList.tasks.map (fun task =>
            if task.id == taskId then { task with completed := !task.completed }
            else task) }) }

/-- The closure variables `deletedTask` / `categoryName` of `deleteTask`
(lines 132–148): the updater scans the category lists in order and, at each
list where `findIndex` succeeds, overwrites both variables, so the final
value comes from the last matching category list; within one list,
`tasks[taskIndex]` is the first task whose id matches. -/
def captureDeleted (cls : List CategoryList) (taskId : String) :
    Option (Task × String) :=
  match cls with
  | [] => none
  | cl :: rest =>
    match captureDeleted rest taskId with
    | some r => some r
    | none =>
      match cl.tasks.find? (fun t => t.id == taskId) with
      | some t => some (t, cl.category)
      | none => none

/-- The `setCategoryLists` updater of `deleteTask` (lines 136–149): each
category list where `findIndex` succeeds has every task with the given id
filtered out; lists without the id are returned unchanged. -/
def removeTaskEverywhere (cls : List CategoryList) (taskId : String) :
    List CategoryList :=
  cls.map (fun categoryList =>
    if categoryList.tasks.any (fun t => t.id == taskId) then
      { categoryList with
        tasks := categoryList.tasks.filter (fun t => !(t.id == taskId)) }
    else
      categoryList)

/-- `deleteTask` (lines 130–179).  Synchronously: remove the task from the
category lists, capture the snapshot, and — when a task was found —
schedule a fresh 5-second expiry timer, store the `DeletedTask` record in
the map, and resolve the returned promise with `false`
(`TemporarilyDeleted`); when no task was found, resolve with `true`
(`AlreadyGone`).  The result is the new store state together with the
promise cell as settled at return time. -/
def deleteTask (s : Store) (taskId : String) : Store × Option Bool :=
  let cls := removeTaskEverywhere s.categoryLists taskId
  match captureDeleted s.categoryLists taskId with
  | some (deletedTask, categoryName) =>
    let timeoutId := s.nextTimeout
    ({ categoryLists := cls
       deletedTasks := mapSet s.deletedTasks taskId
         { task := deletedTask, categoryName := categoryName, timeoutId := timeoutId }
       activeTimers := s.activeTimers ++ [timeoutId]
       nextTimeout := s.nextTimeout + 1 },
     resolveOnce none false)
  | none =>
    ({ s with categoryLists := cls }, resolveOnce none true)

/-- The expiry-timer callback of `deleteTask` (lines 153–161), wrapped in
the scheduler's firing rule: a timer runs only if it is still scheduled and
uncancelled.  When it runs, it deletes the map entry for `taskId` and calls
`resolve(true)` on the (already settled) promise cell `p`; the handle is
consumed.  A cancelled or unknown handle does nothing. -/
def fireExpiry (s : Store) (taskId : String) (timerId : Nat) (p : Option Bool) :
    Store × Option Bool :=
  if timerId ∈ s.activeTimers then
    ({ s with
       deletedTasks := mapDelete s.deletedTasks taskId
       activeTimers := s.activeTimers.filter (fun i => !(i == timerId)) },
     resolveOnce p true)
  else
    (s, p)

/-- `restoreTask` (lines 189–211): when a pending-deletion record exists,
cancel its expiry timer (`clearTimeout`), append the captured task snapshot
to every category list named by the record, and delete the record;
otherwise do nothing. -/
def restoreTask (s : Store) (taskId : String) : Store :=
  match mapGet s.deletedTasks taskId with
  | some deletedTaskData =>
    { s with
      categoryLists :=
        s.categoryLists.map (fun categoryList =>
          if categoryList.category == deletedTaskData.categoryName then
            { categoryList with
              tasks := categoryList.tasks ++ [deletedTaskData.task] }
          else
            categoryList)
      deletedTasks := mapDelete s.deletedTasks taskId
      activeTimers := s.activeTimers.filter (fun i => !(i == deletedTaskData.timeoutId)) }
  | none => s

/-- `deleteCategoryList` (lines 221–225): keep exactly the category lists
whose name differs from `categoryName`. -/
def deleteCategoryList (s : Store) (categoryName : String) : Store :=
  { s with
    categoryLists :=
      s.categoryLists.filter (fun categoryList =>
        !(categoryList.category == categoryName)) }

/-- `getTasksDueToday` (lines 236–248): flatten all tasks of all category
lists and keep those whose due date has the same `toDateString` as the
clock's current value `now`. -/
def getTasksDueToday (s : Store) (now : DateValue) : List Task :=
  (s.categoryLists.flatMap (fun categoryList => categoryList.tasks)).filter
    (fun task => task.dueDate.toDateString == now.toDateString)

/-- A task id occurs in some category's active task list. -/
def taskInActive (s : Store) (taskId : String) : Bool :=
  s.categoryLists.any (fun cl => cl.tasks.any (fun t => t.id == taskId))

/-- States reachable from the initial provider state by the exported store
operations together with expiry-timer firings. -/
inductive Reachable : Store → Prop where
  | init : Reachable Store.init
  | addCategoryList {s} (cl : CategoryList) :
      Reachable s → Reachable (addCategoryList s cl)
  | addTask {s} (t : Task) : Reachable s → Reachable (addTask s t)
  | toggleTaskCompletion {s} (tid : String) :
      Reachable s → Reachable (toggleTaskCompletion s tid)
  | deleteTask {s} (tid : String) : Reachable s → Reachable (deleteTask s tid).1
  | restoreTask {s} (tid : String) : Reachable s → Reachable (restoreTask s tid)
  | deleteCategoryList {s} (name : String) :
      Reachable s → Reachable (deleteCategoryList s name)
  | fireExpiry {s} (tid : String) (timerId : Nat) (p : Option Bool) :
      Reachable s → Reachable (fireExpiry s tid timerId p).1

/-! ## Scenario compositions used by the claims -/

/-- Soft-delete a task and then let its 5-second expiry timer fire with no
intervening restore: the timer handle is the one `deleteTask` allocated
(`s.nextTimeout`) and the fired promise cell is the one `deleteTask`
returned. -/
def deleteThenExpire (s : Store) (taskId : String) : Store :=
  (fireExpiry (deleteTask s taskId).1 taskId s.nextTimeout (deleteTask s taskId).2).1

/-- Soft-delete a task and immediately restore it, inside the 5-second
window (so the pending record is still present). -/
def deleteThenRestore (s : Store) (taskId : String) : Store :=
  restoreTask (deleteTask s taskId).1 taskId

/-- Soft-delete a task, then delete its whole category, then attempt the
restore inside the 5-second window. -/
def deleteTaskThenCategoryThenRestore (s : Store) (taskId categoryName : String) :
    Store :=
  restoreTask (deleteCategoryList (deleteTask s taskId).1 categoryName) taskId

/-! ## Concrete sample data (spec §8, scenario 1) -/

/-- October 11 2026, some time of day. -/
def sampleToday : DateValue := ⟨2026, 10, 11, 500⟩

/-- The day after `sampleToday`. -/
def sampleTomorrow : DateValue := ⟨2026, 10, 12, 0⟩

/-- `{id:"1", title:"Review", dueDate: today, category:"Work", completed:false}`. -/
def taskReview : Task :=
  { id := "1", title := "Review", description := none, dueDate := sampleToday,
    completed := false, category := "Work", priority := none, subtasks := none }

/-- `{name:"Work", color:"#FF9500", icon:"briefcase"}` with no tasks yet. -/
def catWork : CategoryList :=
  { category := "Work", tasks := [], color := "#FF9500", icon := "briefcase" }

/-- A second category, empty, named "Personal". -/
def catPersonal : CategoryList :=
  { category := "Personal", tasks := [], color := "#0000FF", icon := "person" }

/-- A task whose category name ("Nowhere") matches no category. -/
def taskOrphan : Task :=
  { id := "9", title := "Orphan", description := none, dueDate := sampleToday,
    completed := false, category := "Nowhere", priority := none, subtasks := none }

/-- A task filed under the duplicated category name "Home". -/
def taskChores : Task :=
  { id := "7", title := "Chores", description := none, dueDate := sampleTomorrow,
    completed := false, category := "Home", priority := some Priority.bang,
    subtasks := none }

/-- One of two same-named "Home" categories. -/
def catHomeA : CategoryList :=
  { category := "Home", tasks := [], color := "#00FF00", icon := "house" }

/-- The other of two same-named "Home" categories. -/
def catHomeB : CategoryList :=
  { category := "Home", tasks := [], color := "#00AA00", icon := "house" }

/-- The store of spec §8 scenario 1: category "Work" plus task "1", with an
empty "Personal" category alongside. -/
def storeWork : Store :=
  addTask (addCategoryList (addCategoryList Store.init catWork) catPersonal) taskReview

/-- A store with two categories both named "Home". -/
def storeHomes : Store :=
  addCategoryList (addCategoryList Store.init catHomeA) catHomeB

end TaskStore

namespace TaskStore

/-! ## Helper lemmas about the map model -/

theorem find?_overwrite (m : List (String × DeletedTask)) (k : String) (v : DeletedTask) :
    (m.map (fun p => if p.1 == k then (k, v) else p)).find? (fun p => p.1 == k)
      = (m.find? (fun p => p.1 == k)).map (fun _ => (k, v)) := by
  rw [List.find?_map]
  have hpred : ((fun p : String × DeletedTask => p.1 == k) ∘
      (fun p => if p.1 == k then (k, v) else p)) = (fun p => p.1 == k) := by
    funext p
    by_cases h : p.1 = k <;> simp [h]
  rw [hpred]
  cases hf : m.find? (fun p => p.1 == k) with
  | none => rfl
  | some q =>
    have hq : q.1 = k := by simpa using List.find?_some hf
    simp [hq]

theorem mapGet_mapSet_same (m : List (String × DeletedTask)) (k : String) (v : DeletedTask) :
    mapGet (mapSet m k v) k = some v := by
  unfold mapGet mapSet
  by_cases h : m.any (fun p => p.1 == k)
  · rw [if_pos h, find?_overwrite]
    rcases List.any_eq_true.mp h with ⟨p, hp, hpk⟩
    have hs : (m.find? (fun p => p.1 == k)).isSome :=
      List.find?_isSome.mpr ⟨p, hp, hpk⟩
    rcases Option.isSome_iff_exists.mp hs with ⟨q, hq⟩
    rw [hq]
    rfl
  · rw [if_neg h, List.find?_append]
    have hn : m.find? (fun p => p.1 == k) = none := by
      rw [List.find?_eq_none]
      intro x hx
      exact fun hxk => h (List.any_eq_true.mpr ⟨x, hx, hxk⟩)
    simp [hn]

end TaskStore

namespace TaskStore

theorem mapGet_mapDelete_same (m : List (String × DeletedTask)) (k : String) :
    mapGet (mapDelete m k) k = none := by
  unfold mapGet mapDelete
  have hn : (m.filter (fun p => !(p.1 == k))).find? (fun p => p.1 == k) = none := by
    rw [List.find?_eq_none]
    intro x hx
    have := (List.mem_filter.mp hx).2
    simp only [Bool.not_eq_true'] at this
    simp [this]
  rw [hn]
  rfl

theorem mapSet_keys_nodup (m : List (String × DeletedTask)) (k : String) (v : DeletedTask)
    (h : (m.map Prod.fst).Nodup) : ((mapSet m k v).map Prod.fst).Nodup := by
  unfold mapSet
  by_cases ha : m.any (fun p => p.1 == k)
  · rw [if_pos ha]
    have : (m.map (fun p => if p.1 == k then (k, v) else p)).map Prod.fst
        = m.map Prod.fst := by
      rw [List.map_map]
      refine List.map_congr_left ?_
      intro p _
      by_cases hp : p.1 = k <;> simp [hp]
    rw [this]
    exact h
  · rw [if_neg ha]
    have hk : k ∉ m.map Prod.fst := by
      intro hmem
      rcases List.mem_map.mp hmem with ⟨p, hp, hpk⟩
      exact ha (List.any_eq_true.mpr ⟨p, hp, by simp [hpk]⟩)
    simp only [List.map_append, List.map_cons, List.map_nil]
    exact List.Nodup.append h (List.nodup_singleton k)
      (by simpa [List.disjoint_singleton] using hk)

theorem mapDelete_keys_nodup (m : List (String × DeletedTask)) (k : String)
    (h : (m.map Prod.fst).Nodup) : ((mapDelete m k).map Prod.fst).Nodup := by
  unfold mapDelete
  exact List.Nodup.sublist (List.Sublist.map Prod.fst (List.filter_sublist m)) h

/-! ## Helper lemmas about `deleteTask`'s scan -/

/-- The capture succeeds exactly when some category list holds a task with
the given id. -/
theorem captureDeleted_eq_none_iff (cls : List CategoryList) (tid : String) :
    captureDeleted cls tid = none ↔
      cls.any (fun cl => cl.tasks.any (fun t => t.id == tid)) = false := by
  have aux : ∀ l : List Task,
      l.find? (fun t => t.id == tid) = none ↔ (l.any fun t => t.id == tid) = false := by
    intro l
    rw [List.find?_eq_none, List.any_eq_false]
  induction cls with
  | nil => simp [captureDeleted]
  | cons cl rest ih =>
    unfold captureDeleted
    rw [List.any_cons, Bool.or_eq_false_iff]
    cases hr : captureDeleted rest tid with
    | some r =>
      constructor
      · intro h
        simp at h
      · intro h
        have hnone : captureDeleted rest tid = none := ih.mpr h.2
        rw [hnone] at hr
        simp at hr
    | none =>
      have hrest : (rest.any fun cl => cl.tasks.any fun t => t.id == tid) = false :=
        ih.mp hr
      cases hf : cl.tasks.find? (fun t => t.id == tid) with
      | some t =>
        constructor
        · intro h
          simp at h
        · intro h
          have hnone : cl.tasks.find? (fun t => t.id == tid) = none :=
            (aux cl.tasks).mpr h.1
          rw [hnone] at hf
          simp at hf
      | none =>
        constructor
        · intro _
          exact ⟨(aux cl.tasks).mp hf, hrest⟩
        · intro _
          rfl

/-- A successful capture returns a task of one of the category lists,
bearing the searched id, together with that category list's name. -/
theorem captureDeleted_mem (cls : List CategoryList) (tid : String) (T : Task)
    (cname : String) (h : captureDeleted cls tid = some (T, cname)) :
    ∃ cl ∈ cls, cl.category = cname ∧ T ∈ cl.tasks ∧ T.id = tid := by
  induction cls with
  | nil => simp [captureDeleted] at h
  | cons cl rest ih =>
    unfold captureDeleted at h
    cases hr : captureDeleted rest tid with
    | some r =>
      rw [hr] at h
      simp only [Option.some.injEq] at h
      rcases ih (by rw [hr, h]) with ⟨cl', hmem, hcat, htask, hid⟩
      exact ⟨cl', List.mem_cons_of_mem cl hmem, hcat, htask, hid⟩
    | none =>
      rw [hr] at h
      cases hf : cl.tasks.find? (fun t => t.id == tid) with
      | some t =>
        rw [hf] at h
        simp only [Option.some.injEq, Prod.mk.injEq] at h
        refine ⟨cl, List.mem_cons_self cl rest, h.2, ?_, ?_⟩
        · rw [← h.1]
          exact List.mem_of_find?_eq_some hf
        · rw [← h.1]
          simpa using List.find?_some hf
      | none =>
        rw [hf] at h
        exact absurd h (by simp)

/-- After the `deleteTask` updater ran, no category list holds a task with
the deleted id. -/
theorem removeTaskEverywhere_absent (cls : List CategoryList) (tid : String) :
    ∀ cl ∈ removeTaskEverywhere cls tid, ∀ t ∈ cl.tasks, ¬(t.id = tid) := by
  intro cl hcl t ht
  unfold removeTaskEverywhere at hcl
  rcases List.mem_map.mp hcl with ⟨cl0, _, hf⟩
  by_cases ha : cl0.tasks.any (fun t => t.id == tid)
  · rw [if_pos ha] at hf
    rw [← hf] at ht
    have hfalse := (List.mem_filter.mp ht).2
    simp only [Bool.not_eq_true'] at hfalse
    intro hid
    rw [hid] at hfalse
    simp at hfalse
  · rw [if_neg ha] at hf
    rw [← hf] at ht
    intro hid
    exact ha (List.any_eq_true.mpr ⟨t, ht, by simp [hid]⟩)

/-- The updater preserves the sequence of category names. -/
theorem removeTaskEverywhere_categories (cls : List CategoryList) (tid : String) :
    (removeTaskEverywhere cls tid).map CategoryList.category
      = cls.map CategoryList.category := by
  unfold removeTaskEverywhere
  rw [List.map_map]
  refine List.map_congr_left ?_
  intro cl _
  by_cases ha : cl.tasks.any (fun t => t.id == tid) = true
  · rw [Function.comp_apply, if_pos ha]
  · rw [Function.comp_apply, if_neg ha]

/-- `taskInActive` unfolded to an existential. -/
theorem taskInActive_iff (s : Store) (tid : String) :
    taskInActive s tid = true ↔
      ∃ cl ∈ s.categoryLists, ∃ t ∈ cl.tasks, t.id = tid := by
  unfold taskInActive
  simp

end TaskStore

namespace TaskStore

/-! ## Claim theorems -/

/-- C10: for every store state and every taskId, applying
`toggleTaskCompletion` twice in succession restores the whole store state —
in particular every task's `completed` flag — to its value before the first
call, whether or not the id occurs in any active task list. -/
theorem toggleTaskCompletion_involutive (s : Store) (taskId : String) :
    toggleTaskCompletion (toggleTaskCompletion s taskId) taskId = s := by
  have htask : ∀ t : Task,
      (fun task : Task =>
        if task.id == taskId then { task with completed := !task.completed }
        else task)
      ((fun task : Task =>
        if task.id == taskId then { task with completed := !task.completed }
        else task) t) = t := by
    intro t
    by_cases h : t.id = taskId
    · subst h
      simp
    · simp [h]
  have hcl : ∀ cl : CategoryList,
      (fun categoryList : CategoryList =>
        { categoryList with
          tasks := categoryList.tasks.map (fun task =>
            if task.id == taskId then { task with completed := !task.completed }
            else task) })
      ((fun categoryList : CategoryList =>
        { categoryList with
          tasks := categoryList.tasks.map (fun task =>
            if task.id == taskId then { task with completed := !task.completed }
            else task) }) cl) = cl := by
    intro cl
    simp only [List.map_map]
    have : cl.tasks.map ((fun task : Task =>
        if task.id == taskId then { task with completed := !task.completed }
        else task) ∘ (fun task : Task =>
        if task.id == taskId then { task with completed := !task.completed }
        else task)) = cl.tasks.map id := by
      refine List.map_congr_left ?_
      intro t _
      exact htask t
    rw [this, List.map_id]
  show { s with categoryLists := _ } = s
  simp only [toggleTaskCompletion, List.map_map]
  have : s.categoryLists.map ((fun categoryList : CategoryList =>
      { categoryList with
        tasks := categoryList.tasks.map (fun task =>
          if task.id == taskId then { task with completed := !task.completed }
          else task) }) ∘ (fun categoryList : CategoryList =>
      { categoryList with
        tasks := categoryList.tasks.map (fun task =>
          if task.id == taskId then { task with completed := !task.completed }
          else task) })) = s.categoryLists.map id := by
    refine List.map_congr_left ?_
    intro cl _
    exact hcl cl
  rw [this, List.map_id]

end TaskStore

namespace TaskStore

/-- C9: when several category lists share a name, `addTask` appends a copy
of the task to every list whose name matches, not only the first: position
by position, a matching list gains the task at its end and a non-matching
list is returned unchanged. -/
theorem addTask_appends_to_every_match (s : Store) (task : Task) (i : Nat) :
    (addTask s task).categoryLists[i]? =
      (s.categoryLists[i]?).map (fun cl =>
        if cl.category = task.category then { cl with tasks := cl.tasks ++ [task] }
        else cl) := by
  have hfun : (fun cl : CategoryList =>
      if cl.category == task.category then { cl with tasks := cl.tasks ++ [task] }
      else cl) = (fun cl : CategoryList =>
      if cl.category = task.category then { cl with tasks := cl.tasks ++ [task] }
      else cl) := by
    funext cl
    by_cases h : cl.category = task.category <;> simp [h]
  show (s.categoryLists.map _)[i]? = _
  rw [List.getElem?_map, hfun]

/-- A witness for C9: with two category lists both named "Home", adding a
"Home" task puts a copy at the end of both lists. -/
theorem addTask_appends_to_every_match_witness :
    ((addTask storeHomes taskChores).categoryLists[0]? =
      some { catHomeA with tasks := [taskChores] }) ∧
    ((addTask storeHomes taskChores).categoryLists[1]? =
      some { catHomeB with tasks := [taskChores] }) := by
  refine ⟨?_, ?_⟩
  · rw [addTask_appends_to_every_match storeHomes taskChores 0]
    decide
  · rw [addTask_appends_to_every_match storeHomes taskChores 1]
    decide

/-- C7: when a task's `category` field matches no existing category name,
`addTask` is a silent no-op — the store state is entirely unchanged (no
error is reported: the operation returns the state and nothing else), and
a task not previously present in any list appears in none afterwards. -/
theorem addTask_unknown_category_noop (s : Store) (task : Task)
    (h : ∀ cl ∈ s.categoryLists, cl.category ≠ task.category) :
    addTask s task = s ∧
      ((∀ cl ∈ s.categoryLists, task ∉ cl.tasks) →
        ∀ cl ∈ (addTask s task).categoryLists, task ∉ cl.tasks) := by
  have hmap : s.categoryLists.map (fun cl =>
      if cl.category == task.category then { cl with tasks := cl.tasks ++ [task] }
      else cl) = s.categoryLists := by
    conv_rhs => rw [← List.map_id s.categoryLists]
    refine List.map_congr_left ?_
    intro cl hcl
    have hb : (cl.category == task.category) = false := by
      simpa using h cl hcl
    simp [hb]
  have hmain : addTask s task = s := by
    show { s with categoryLists := _ } = s
    rw [hmap]
  refine ⟨hmain, ?_⟩
  intro habs cl hcl
  rw [hmain] at hcl
  exact habs cl hcl

/-- A witness for C7: adding a task filed under "Nowhere" to the
Work/Personal store changes nothing. -/
theorem addTask_unknown_category_noop_witness :
    (∀ cl ∈ storeWork.categoryLists, cl.category ≠ taskOrphan.category) ∧
      addTask storeWork taskOrphan = storeWork := by
  refine ⟨by decide, ?_⟩
  exact (addTask_unknown_category_noop storeWork taskOrphan (by decide)).1

/-- C6: `deleteCategoryList` keeps exactly the category lists whose name
differs — each survivor untouched, with all its tasks — and leaves the
pending-deletion map, the running expiry timers, and the timer counter
unchanged. -/
theorem deleteCategoryList_spec (s : Store) (categoryName : String) :
    ((deleteCategoryList s categoryName).deletedTasks = s.deletedTasks) ∧
    ((deleteCategoryList s categoryName).activeTimers = s.activeTimers) ∧
    ((deleteCategoryList s categoryName).nextTimeout = s.nextTimeout) ∧
    (∀ cl, cl ∈ (deleteCategoryList s categoryName).categoryLists ↔
      (cl ∈ s.categoryLists ∧ cl.category ≠ categoryName)) := by
  refine ⟨rfl, rfl, rfl, ?_⟩
  intro cl
  show cl ∈ s.categoryLists.filter _ ↔ _
  rw [List.mem_filter]
  simp

/-- A witness for C6: deleting "Work" from the Work/Personal store keeps
the untouched "Personal" list, drops the "Work" list, and leaves the
pending-deletion map unchanged. -/
theorem deleteCategoryList_spec_witness :
    ((deleteCategoryList storeWork "Work").deletedTasks = storeWork.deletedTasks) ∧
      (catPersonal ∈ (deleteCategoryList storeWork "Work").categoryLists) := by
  refine ⟨(deleteCategoryList_spec storeWork "Work").1, ?_⟩
  exact ((deleteCategoryList_spec storeWork "Work").2.2.2 catPersonal).mpr
    ⟨by decide, by decide⟩

end TaskStore

namespace TaskStore

/-- C1: the outcome of `deleteTask` is settled synchronously at call time:
the returned promise cell is already resolved when the call returns, with
`false` (`TemporarilyDeleted`) exactly when the id occurs in some
category's active task list at that moment and `true` (`AlreadyGone`)
exactly when it does not; and the `resolve(true)` later issued inside the
expiry-timer callback leaves the settled cell unchanged, whatever store
state the timer fires in. -/
theorem deleteTask_outcome_settled (s : Store) (taskId : String) :
    ((deleteTask s taskId).2 = some false ↔ taskInActive s taskId = true) ∧
    ((deleteTask s taskId).2 = some true ↔ taskInActive s taskId = false) ∧
    (∀ s' timerId,
      (fireExpiry s' taskId timerId (deleteTask s taskId).2).2
        = (deleteTask s taskId).2) := by
  have hcap := captureDeleted_eq_none_iff s.categoryLists taskId
  have hsettled : ∀ v : Bool, ∀ s' timerId,
      (fireExpiry s' taskId timerId (some v)).2 = some v := by
    intro v s' timerId
    unfold fireExpiry
    by_cases hmem : timerId ∈ s'.activeTimers
    · rw [if_pos hmem]
      rfl
    · rw [if_neg hmem]
  unfold deleteTask
  cases hc : captureDeleted s.categoryLists taskId with
  | some pair =>
    have hact : taskInActive s taskId = true := by
      by_contra hno
      have hfalse : taskInActive s taskId = false := by
        cases hb : taskInActive s taskId
        · rfl
        · exact absurd hb hno
      rw [hcap.mpr hfalse] at hc
      simp at hc
    cases pair with
    | mk T cname =>
      refine ⟨by simp [resolveOnce, hact], by simp [resolveOnce, hact], ?_⟩
      intro s' timerId
      exact hsettled false s' timerId
  | none =>
    have hact : taskInActive s taskId = false := hcap.mp hc
    refine ⟨by simp [resolveOnce, hact], by simp [resolveOnce, hact], ?_⟩
    intro s' timerId
    exact hsettled true s' timerId

/-- C5: `getTasksDueToday` returns exactly the tasks of the active category
lists whose due date shares the clock's calendar day (time of day ignored);
and it never returns a task whose id is absent from every active list — in
particular never a task living only in the pending-deletion map. -/
theorem getTasksDueToday_spec (s : Store) (now : DateValue) :
    (∀ t, t ∈ getTasksDueToday s now ↔
      ((∃ cl ∈ s.categoryLists, t ∈ cl.tasks) ∧
        t.dueDate.toDateString = now.toDateString)) ∧
    (∀ taskId, taskInActive s taskId = false →
      ∀ t ∈ getTasksDueToday s now, t.id ≠ taskId) := by
  have hmem : ∀ t, t ∈ getTasksDueToday s now ↔
      ((∃ cl ∈ s.categoryLists, t ∈ cl.tasks) ∧
        t.dueDate.toDateString = now.toDateString) := by
    intro t
    unfold getTasksDueToday
    rw [List.mem_filter, List.mem_flatMap]
    simp
  refine ⟨hmem, ?_⟩
  intro taskId hno t ht hid
  rcases (hmem t).mp ht with ⟨⟨cl, hcl, htask⟩, _⟩
  have : taskInActive s taskId = true :=
    (taskInActive_iff s taskId).mpr ⟨cl, hcl, t, htask, hid⟩
  rw [hno] at this
  exact absurd this (by simp)

/-- A witness for C5: in the Work/Personal store, the "Review" task due
today is returned for today's date, and for an id in no active list ("42")
no returned task carries it. -/
theorem getTasksDueToday_spec_witness :
    (taskReview ∈ getTasksDueToday storeWork sampleToday) ∧
      (∀ t ∈ getTasksDueToday storeWork sampleToday, t.id ≠ "42") := by
  refine ⟨?_, ?_⟩
  · exact ((getTasksDueToday_spec storeWork sampleToday).1 taskReview).mpr
      (by refine ⟨⟨{ catWork with tasks := [taskReview] }, by decide, by decide⟩, by decide⟩)
  · exact (getTasksDueToday_spec storeWork sampleToday).2 "42" (by decide)

end TaskStore

namespace TaskStore

/-- Shape of `deleteTask`'s result when the scan found a task. -/
theorem deleteTask_found (s : Store) (taskId : String) (T : Task) (cname : String)
    (h : captureDeleted s.categoryLists taskId = some (T, cname)) :
    deleteTask s taskId =
      ({ categoryLists := removeTaskEverywhere s.categoryLists taskId
         deletedTasks := mapSet s.deletedTasks taskId
           { task := T, categoryName := cname, timeoutId := s.nextTimeout }
         activeTimers := s.activeTimers ++ [s.nextTimeout]
         nextTimeout := s.nextTimeout + 1 }, some false) := by
  unfold deleteTask
  rw [h]
  rfl

/-- C2: soft-deleting an active task and letting the 5000 ms expiry fire
with no intervening restore leaves the id absent from every category's
task list, absent from any due-today query, and with no pending-deletion
record remaining in the map. -/
theorem deleteThenExpire_spec (s : Store) (taskId : String) (now : DateValue)
    (h : taskInActive s taskId = true) :
    (∀ cl ∈ (deleteThenExpire s taskId).categoryLists, ∀ t ∈ cl.tasks, t.id ≠ taskId) ∧
    (∀ t ∈ getTasksDueToday (deleteThenExpire s taskId) now, t.id ≠ taskId) ∧
    (mapGet (deleteThenExpire s taskId).deletedTasks taskId = none) := by
  unfold taskInActive at h
  cases hc : captureDeleted s.categoryLists taskId with
  | none =>
    rw [(captureDeleted_eq_none_iff s.categoryLists taskId).mp hc] at h
    simp at h
  | some pair =>
    cases pair with
    | mk T cname =>
      have hdel := deleteTask_found s taskId T cname hc
      have hfire : deleteThenExpire s taskId =
          { categoryLists := removeTaskEverywhere s.categoryLists taskId
            deletedTasks := mapDelete (mapSet s.deletedTasks taskId
              { task := T, categoryName := cname, timeoutId := s.nextTimeout }) taskId
            activeTimers := (s.activeTimers ++ [s.nextTimeout]).filter
              (fun i => !(i == s.nextTimeout))
            nextTimeout := s.nextTimeout + 1 } := by
        unfold deleteThenExpire
        rw [hdel]
        unfold fireExpiry
        rw [if_pos (by simp : s.nextTimeout ∈ s.activeTimers ++ [s.nextTimeout])]
      rw [hfire]
      refine ⟨?_, ?_, ?_⟩
      · intro cl hcl t ht hid
        exact removeTaskEverywhere_absent s.categoryLists taskId cl hcl t ht hid
      · intro t ht hid
        rcases List.mem_flatMap.mp (List.mem_filter.mp ht).1 with ⟨cl, hcl, htask⟩
        exact removeTaskEverywhere_absent s.categoryLists taskId cl hcl t htask hid
      · exact mapGet_mapDelete_same _ taskId

/-- A witness for C2: delete task "1" from the Work/Personal store and let
the timer fire; the "Work" list no longer holds it, today's query is empty
of it, and the pending map has no entry. -/
theorem deleteThenExpire_spec_witness :
    (taskInActive storeWork "1" = true) ∧
      (mapGet (deleteThenExpire storeWork "1").deletedTasks "1" = none) := by
  refine ⟨by decide, ?_⟩
  exact (deleteThenExpire_spec storeWork "1" sampleToday (by decide)).2.2

/-- C3: soft-deleting an active task and restoring it inside the window
discards the pending-deletion record, cancels the scheduled expiry (firing
its timer afterwards changes nothing — no later state change tied to the
id), and re-inserts the very deletion-time snapshot at the end of its
original category's task list with every field intact. -/
theorem deleteThenRestore_spec (s : Store) (taskId : String) (T : Task) (cname : String)
    (h : captureDeleted s.categoryLists taskId = some (T, cname)) :
    (mapGet (deleteThenRestore s taskId).deletedTasks taskId = none) ∧
    (∀ p, fireExpiry (deleteThenRestore s taskId) taskId s.nextTimeout p
        = (deleteThenRestore s taskId, p)) ∧
    (∃ cl ∈ (deleteThenRestore s taskId).categoryLists,
      cl.category = cname ∧ cl.tasks.getLast? = some T) := by
  have hdel := deleteTask_found s taskId T cname h
  have hget : mapGet (deleteTask s taskId).1.deletedTasks taskId =
      some { task := T, categoryName := cname, timeoutId := s.nextTimeout } := by
    rw [hdel]
    exact mapGet_mapSet_same _ _ _
  have hrest : deleteThenRestore s taskId =
      { categoryLists := (removeTaskEverywhere s.categoryLists taskId).map
          (fun cl => if cl.category == cname then { cl with tasks := cl.tasks ++ [T] }
            else cl)
        deletedTasks := mapDelete (mapSet s.deletedTasks taskId
          { task := T, categoryName := cname, timeoutId := s.nextTimeout }) taskId
        activeTimers := (s.activeTimers ++ [s.nextTimeout]).filter
          (fun i => !(i == s.nextTimeout))
        nextTimeout := s.nextTimeout + 1 } := by
    unfold deleteThenRestore restoreTask
    rw [hget, hdel]
  refine ⟨?_, ?_, ?_⟩
  · rw [hrest]
    exact mapGet_mapDelete_same _ taskId
  · intro p
    have hnot : s.nextTimeout ∉ (deleteThenRestore s taskId).activeTimers := by
      rw [hrest]
      intro hmem
      have := (List.mem_filter.mp hmem).2
      simp at this
    unfold fireExpiry
    rw [if_neg hnot]
  · rcases captureDeleted_mem s.categoryLists taskId T cname h with
      ⟨cl0, hcl0, hcat0, _, _⟩
    have hcl1 : ∃ cl1 ∈ removeTaskEverywhere s.categoryLists taskId,
        cl1.category = cname := by
      unfold removeTaskEverywhere
      by_cases ha : cl0.tasks.any (fun t => t.id == taskId) = true
      · exact ⟨_, List.mem_map_of_mem _ hcl0, by rw [if_pos ha]; exact hcat0⟩
      · exact ⟨_, List.mem_map_of_mem _ hcl0, by rw [if_neg ha]; exact hcat0⟩
    rcases hcl1 with ⟨cl1, hmem1, hcat1⟩
    rw [hrest]
    refine ⟨{ cl1 with tasks := cl1.tasks ++ [T] }, ?_, hcat1, List.getLast?_concat _⟩
    have hb : (cl1.category == cname) = true := by simp [hcat1]
    refine List.mem_map.mpr ⟨cl1, hmem1, ?_⟩
    rw [if_pos hb]

/-- A witness for C3: delete task "1" and restore it at once; the "Work"
list ends with the untouched snapshot and the pending map is empty. -/
theorem deleteThenRestore_spec_witness :
    (captureDeleted storeWork.categoryLists "1" = some (taskReview, "Work")) ∧
      (mapGet (deleteThenRestore storeWork "1").deletedTasks "1" = none) := by
  refine ⟨by decide, ?_⟩
  exact (deleteThenRestore_spec storeWork "1" taskReview "Work" (by decide)).1

end TaskStore

namespace TaskStore

/-- C8: when the category named in a pending-deletion record was removed by
`deleteCategoryList` after the soft delete, a timely `restoreTask` still
cancels the expiry timer and discards the record, yet re-inserts the task
into no category list: the lists are exactly those left by the category
deletion, no list is named after the deleted category (it is not
recreated), and the task's id occurs nowhere — the task is silently lost. -/
theorem restoreAfterCategoryDeleted_spec (s : Store) (taskId : String) (T : Task)
    (cname : String) (h : captureDeleted s.categoryLists taskId = some (T, cname)) :
    ((deleteTaskThenCategoryThenRestore s taskId cname).categoryLists
        = (deleteCategoryList (deleteTask s taskId).1 cname).categoryLists) ∧
    (mapGet (deleteTaskThenCategoryThenRestore s taskId cname).deletedTasks taskId
        = none) ∧
    (s.nextTimeout ∉ (deleteTaskThenCategoryThenRestore s taskId cname).activeTimers) ∧
    (∀ cl ∈ (deleteTaskThenCategoryThenRestore s taskId cname).categoryLists,
      cl.category ≠ cname) ∧
    (∀ cl ∈ (deleteTaskThenCategoryThenRestore s taskId cname).categoryLists,
      ∀ t ∈ cl.tasks, t.id ≠ taskId) := by
  have hdel := deleteTask_found s taskId T cname h
  have hcatdel : deleteCategoryList (deleteTask s taskId).1 cname =
      { categoryLists := (removeTaskEverywhere s.categoryLists taskId).filter
          (fun cl => !(cl.category == cname))
        deletedTasks := mapSet s.deletedTasks taskId
          { task := T, categoryName := cname, timeoutId := s.nextTimeout }
        activeTimers := s.activeTimers ++ [s.nextTimeout]
        nextTimeout := s.nextTimeout + 1 } := by
    rw [show (deleteTask s taskId).1 = _ from congrArg Prod.fst hdel]
    rfl
  have hget : mapGet (deleteCategoryList (deleteTask s taskId).1 cname).deletedTasks
      taskId = some { task := T, categoryName := cname, timeoutId := s.nextTimeout } := by
    rw [hcatdel]
    exact mapGet_mapSet_same _ _ _
  have hmapF : ((removeTaskEverywhere s.categoryLists taskId).filter
      (fun cl => !(cl.category == cname))).map
      (fun cl => if cl.category == cname then { cl with tasks := cl.tasks ++ [T] }
        else cl)
      = (removeTaskEverywhere s.categoryLists taskId).filter
        (fun cl => !(cl.category == cname)) := by
    conv_rhs => rw [← List.map_id ((removeTaskEverywhere s.categoryLists taskId).filter
      (fun cl => !(cl.category == cname)))]
    refine List.map_congr_left ?_
    intro cl hcl
    have hb : (cl.category == cname) = false := by
      have := (List.mem_filter.mp hcl).2
      simpa using this
    simp [hb]
  have hrest : deleteTaskThenCategoryThenRestore s taskId cname =
      { categoryLists := (removeTaskEverywhere s.categoryLists taskId).filter
          (fun cl => !(cl.category == cname))
        deletedTasks := mapDelete (mapSet s.deletedTasks taskId
          { task := T, categoryName := cname, timeoutId := s.nextTimeout }) taskId
        activeTimers := (s.activeTimers ++ [s.nextTimeout]).filter
          (fun i => !(i == s.nextTimeout))
        nextTimeout := s.nextTimeout + 1 } := by
    unfold deleteTaskThenCategoryThenRestore restoreTask
    rw [hget, hcatdel]
    dsimp only
    rw [hmapF]
  refine ⟨?_, ?_, ?_, ?_, ?_⟩
  · rw [hrest, hcatdel]
  · rw [hrest]
    exact mapGet_mapDelete_same _ taskId
  · rw [hrest]
    intro hmem
    have := (List.mem_filter.mp hmem).2
    simp at this
  · intro cl hcl
    rw [hrest] at hcl
    have hb := (List.mem_filter.mp hcl).2
    intro hceq
    rw [hceq] at hb
    simp at hb
  · intro cl hcl t ht
    rw [hrest] at hcl
    exact removeTaskEverywhere_absent s.categoryLists taskId cl
      (List.mem_of_mem_filter hcl) t ht

/-- A witness for C8: delete task "1", delete the whole "Work" category,
then restore "1": the record is gone and the "Work" list is not recreated. -/
theorem restoreAfterCategoryDeleted_spec_witness :
    (mapGet (deleteTaskThenCategoryThenRestore storeWork "1" "Work").deletedTasks "1"
        = none) ∧
      (∀ cl ∈ (deleteTaskThenCategoryThenRestore storeWork "1" "Work").categoryLists,
        cl.category ≠ "Work") := by
  refine ⟨?_, ?_⟩
  · exact (restoreAfterCategoryDeleted_spec storeWork "1" taskReview "Work"
      (by decide)).2.1
  · exact (restoreAfterCategoryDeleted_spec storeWork "1" taskReview "Work"
      (by decide)).2.2.2.1

end TaskStore

namespace TaskStore

/-- In every reachable state the keys of the `deletedTasks` map are
pairwise distinct (the `Map` semantics preserved by the assoc-list model). -/
theorem reachable_pending_keys_nodup {s : Store} (h : Reachable s) :
    (s.deletedTasks.map Prod.fst).Nodup := by
  induction h with
  | init => simp [Store.init]
  | addCategoryList cl _ ih => exact ih
  | addTask t _ ih => exact ih
  | toggleTaskCompletion tid _ ih => exact ih
  | deleteCategoryList name _ ih => exact ih
  | @deleteTask s tid _ ih =>
    unfold deleteTask
    cases hc : captureDeleted s.categoryLists tid with
    | some pair =>
      cases pair with
      | mk T cname => exact mapSet_keys_nodup _ _ _ ih
    | none => exact ih
  | @restoreTask s tid _ ih =>
    unfold restoreTask
    cases hm : mapGet s.deletedTasks tid with
    | some d => exact mapDelete_keys_nodup _ _ ih
    | none => exact ih
  | @fireExpiry s tid timerId p _ ih =>
    unfold fireExpiry
    by_cases hmem : timerId ∈ s.activeTimers
    · rw [if_pos hmem]
      exact mapDelete_keys_nodup _ _ ih
    · rw [if_neg hmem]
      exact ih

/-- C4: in every reachable store state at most one pending-deletion entry
exists per task id; and calling `deleteTask` on an id that has a pending
record but sits in no active category list is treated as not found — it
resolves `true` (`AlreadyGone`) and leaves the pending map (hence the
existing entry) and the scheduled timers untouched. -/
theorem pendingDeletion_unique_and_redelete_noop (s : Store) (hr : Reachable s) :
    (∀ taskId, s.deletedTasks.countP (fun p => p.1 == taskId) ≤ 1) ∧
    (∀ taskId, mapGet s.deletedTasks taskId ≠ none →
      taskInActive s taskId = false →
      ((deleteTask s taskId).2 = some true ∧
       (deleteTask s taskId).1.deletedTasks = s.deletedTasks ∧
       (deleteTask s taskId).1.activeTimers = s.activeTimers)) := by
  constructor
  · intro taskId
    have hnd := reachable_pending_keys_nodup hr
    have h1 : s.deletedTasks.countP (fun p => p.1 == taskId)
        = (s.deletedTasks.map Prod.fst).countP (fun x => x == taskId) := by
      rw [List.countP_map]
      rfl
    rw [h1]
    exact List.nodup_iff_count_le_one.mp hnd taskId
  · intro taskId _ ha
    have hc : captureDeleted s.categoryLists taskId = none :=
      (captureDeleted_eq_none_iff s.categoryLists taskId).mpr ha
    unfold deleteTask
    rw [hc]
    exact ⟨rfl, rfl, rfl⟩

/-- A witness for C4: after deleting task "1" from the Work/Personal store
(so "1" is pending and inactive), its count in the map is at most one and a
second `deleteTask "1"` resolves `AlreadyGone` leaving the map unchanged. -/
theorem pendingDeletion_unique_and_redelete_noop_witness :
    ((deleteTask (deleteTask storeWork "1").1 "1").2 = some true) ∧
      ((deleteTask (deleteTask storeWork "1").1 "1").1.deletedTasks
        = (deleteTask storeWork "1").1.deletedTasks) ∧
      ((deleteTask storeWork "1").1.deletedTasks.countP (fun p => p.1 == "1") ≤ 1) := by
  have hr : Reachable (deleteTask storeWork "1").1 :=
    Reachable.deleteTask "1" (Reachable.addTask taskReview
      (Reachable.addCategoryList catPersonal
        (Reachable.addCategoryList catWork Reachable.init)))
  refine ⟨?_, ?_, ?_⟩
  · exact ((pendingDeletion_unique_and_redelete_noop _ hr).2 "1"
      (by decide) (by decide)).1
  · exact ((pendingDeletion_unique_and_redelete_noop _ hr).2 "1"
      (by decide) (by decide)).2.1
  · exact (pendingDeletion_unique_and_redelete_noop _ hr).1 "1"

end TaskStore
